import Mathlib

/-!
# Verification of the IIIF → CSL-JSON → catalog-item conversion core

Shallow embedding of the conversion library
(`iiif_to_csl_core_1_1_0_fruittimer.js`) and of the CSL → catalog-item
mapping half of the CLI (`iiif_to_zotero_local_cli_0_2_0.js`).

Modelling conventions:
* JSON values are the inductive `JVal`; JavaScript truthiness, property
  access and `String(v)` stringification are modelled by `JVal.truthy`,
  `JVal.getField` and `jsToString`.  `null` and `undefined` are conflated
  into `JVal.jnull` (every use in the source distinguishes them only
  through truthiness or `!= null`, where they agree).
* `manifest.metadata` is iterated with `for … of` in the source; the model
  reads it as a list when it is a JSON array and as the empty list
  otherwise (matching the `|| []` default for falsy values; a truthy
  non-array there is malformed input on which the source would throw or
  iterate characters, and no conversion record would be produced).
* String helpers (`trim`, `toLowerCase`, `split`, `join`, `padStart`) are
  embedded as structurally recursive functions on `String.data` so that
  concrete instances evaluate inside the kernel.
* The regular expressions of the source (`/iiif\.io/`,
  `/manuscript|codex|ms\b/`, `/article|journal|periodical/`,
  `/(1[0-9]{3}|20[0-9]{2})/`, the created/published label pattern and the
  `[;\n]+`, `\s+`, `"/"` split separators) are embedded as explicit
  scanners over character lists.
-/

/-- A JSON value, as produced by `JSON.parse`.  `jnull` stands for both
`null` and `undefined` (see module comment). -/
inductive JVal where
  | jnull : JVal
  | jbool : Bool → JVal
  | jnum : Int → JVal
  | jstr : String → JVal
  | jarr : List JVal → JVal
  | jobj : List (String × JVal) → JVal

/-- JavaScript truthiness of a JSON value (`NaN` is not representable in
the model; JSON has no `NaN` literal). -/
def JVal.truthy : JVal → Bool
  | .jnull => false
  | .jbool b => b
  | .jnum n => n != 0
  | .jstr s => s ≠ ""
  | .jarr _ => true
  | .jobj _ => true

/-- Property access `v[key]`: the field of an object, `undefined`
(modelled `jnull`) otherwise. -/
def JVal.getField : JVal → String → JVal
  | .jobj fs, key =>
    match fs.find? (fun p => p.1 == key) with
    | some p => p.2
    | none => .jnull
  | _, _ => .jnull

/-- Embedding of `Array.prototype.join(",")` on already-rendered elements. -/
def joinComma : List String → String
  | [] => ""
  | [s] => s
  | s :: rest => s ++ "," ++ joinComma rest

mutual

/-- Embedding of `String(v)` / template-literal stringification.  Arrays join their
elements with `","`, rendering `null`/`undefined` elements as `""`;
plain objects render as `"[object Object]"`. -/
def jsToString : JVal → String
  | .jnull => "null"
  | .jbool b => cond b "true" "false"
  | .jnum n => toString n
  | .jstr s => s
  | .jarr xs => joinComma (jsToStringArrayElems xs)
  | .jobj _ => "[object Object]"

/-- Elements of an array under `Array.prototype.toString`. -/
def jsToStringArrayElems : List JVal → List String
  | [] => []
  | .jnull :: rest => "" :: jsToStringArrayElems rest
  | v :: rest => jsToString v :: jsToStringArrayElems rest

end

/-- Embedding of `Array.prototype.join(sep)` / `String.intercalate`, structurally. -/
def joinWith (sep : String) : List String → String
  | [] => ""
  | [s] => s
  | s :: rest => s ++ sep ++ joinWith sep rest

/-- The whitespace class trimmed by JavaScript `String.prototype.trim`
and matched by the regex class `\s` (space, tab, line terminators, and
the Unicode space separators, by code point). -/
def isJsWhitespace (c : Char) : Bool :=
  c = ' ' || c = '\t' || c = '\n' || c = '\r' || c = '\x0B' || c = '\x0C' ||
  c.toNat = 0x00A0 || c.toNat = 0x1680 ||
  (0x2000 ≤ c.toNat && c.toNat ≤ 0x200A) ||
  c.toNat = 0x2028 || c.toNat = 0x2029 || c.toNat = 0x202F ||
  c.toNat = 0x205F || c.toNat = 0x3000 || c.toNat = 0xFEFF

/-- Drop leading whitespace from a character list. -/
def trimLeftChars (l : List Char) : List Char := l.dropWhile isJsWhitespace

/-- Embedding of `String.prototype.trim` on the underlying character list. -/
def jsTrimChars (l : List Char) : List Char :=
  ((trimLeftChars l).reverse.dropWhile isJsWhitespace).reverse

/-- Embedding of `String.prototype.trim`. -/
def jsTrim (s : String) : String := ⟨jsTrimChars s.data⟩

/-- Embedding of `String.prototype.toLowerCase` (ASCII range, which is all the source
ever compares). -/
def lowerStr (s : String) : String := ⟨s.data.map Char.toLower⟩

/-- Embedding of `str.split(sep)` for a one-character separator: every occurrence
splits, empty pieces are kept (JavaScript `String.prototype.split`). -/
def splitOnChar (sep : Char) : List Char → List (List Char)
  | [] => [[]]
  | c :: rest =>
    let r := splitOnChar sep rest
    if c = sep then [] :: r
    else
      match r with
      | x :: xs => (c :: x) :: xs
      | [] => [[c]]

/-- Embedding of `str.split(re)` where `re` is a character class with `+`: maximal
runs of separator characters split; an empty piece appears at an end
that starts or finishes with a separator run. -/
def splitOnRuns (isSep : Char → Bool) : List Char → List (List Char)
  | [] => [[]]
  | c :: rest =>
    let r := splitOnRuns isSep rest
    if isSep c then
      match rest with
      | c2 :: _ => if isSep c2 then r else [] :: r
      | [] => [] :: r
    else
      match r with
      | x :: xs => (c :: x) :: xs
      | [] => [[c]]

/-- Substring test on character lists: regex membership for a pattern
that is a plain literal. -/
def hasSubstr (pat : List Char) : List Char → Bool
  | [] => pat.isPrefixOf []
  | c :: rest => pat.isPrefixOf (c :: rest) || hasSubstr pat rest

/-- Embedding of `looksLikeIIIFManifest(text)`: falsy text fails; otherwise the regex
`/iiif\.io/` — an `"iiif.io"` substring — must match. -/
def looksLikeIIIFManifest (text : String) : Bool :=
  if text = "" then false
  else hasSubstr "iiif.io".data text.data

/-- Embedding of `iiifLabelToString(label)`: normalize the three IIIF label encodings
(plain string, v2 array, v3 language map) to one display string. -/
def iiifLabelToString (label : JVal) : String :=
  if !label.truthy then ""
  else
    match label with
    | .jobj fs => jsTrim (joinWith " " (langMapPieces fs))
    | .jarr items => jsTrim (joinWith " " (arrayPieces items))
    | .jstr s => jsTrim s
    | v => jsTrim (jsToString v)
where
  /-- v3 language map: all truthy elements of all array-valued entries,
  in key-then-array order. -/
  langMapPieces : List (String × JVal) → List String
    | [] => []
    | (_, .jarr vs) :: rest =>
      (vs.filter (·.truthy)).map jsToString ++ langMapPieces rest
    | _ :: rest => langMapPieces rest
  /-- v2 array: objects contribute their `"@value"` field (stringified,
  whatever it is), `null` elements are skipped, anything else is
  stringified directly.  An array element has no `"@value"` property and
  is stringified like any non-object. -/
  arrayPieces : List JVal → List String
    | [] => []
    | .jobj fs :: rest =>
      (match fs.find? (fun p => p.1 == "@value") with
       | some p => jsToString p.2
       | none => "[object Object]") :: arrayPieces rest
    | .jnull :: rest => arrayPieces rest
    | v :: rest => jsToString v :: arrayPieces rest

/-- The manifest's metadata list: `manifest.metadata || []`, read as a
list when it is an array (see module comment). -/
def getMetadataList (manifest : JVal) : List JVal :=
  match manifest.getField "metadata" with
  | .jarr xs => xs
  | _ => []

/-- Inner candidate loop of `getFirstMetadataValue`: for each candidate
key in order, on a case-insensitive label match return the entry's
normalized value if it is non-empty, else keep scanning. -/
def firstKeyMatch (labelStr valueStr : String) : List String → Option String
  | [] => none
  | key :: keys =>
    if lowerStr labelStr = lowerStr key then
      if valueStr ≠ "" then some valueStr else firstKeyMatch labelStr valueStr keys
    else firstKeyMatch labelStr valueStr keys

/-- Outer entry loop of `getFirstMetadataValue`. -/
def getFirstMetadataValueAux (keyCandidates : List String) : List JVal → String
  | [] => ""
  | entry :: rest =>
    let labelStr := iiifLabelToString (entry.getField "label")
    let valueStr := iiifLabelToString (entry.getField "value")
    match firstKeyMatch labelStr valueStr keyCandidates with
    | some v => v
    | none => getFirstMetadataValueAux keyCandidates rest

/-- Embedding of `getFirstMetadataValue(manifest, keyCandidates)`: search the IIIF
metadata for the first matching label and return its value. -/
def getFirstMetadataValue (manifest : JVal) (keyCandidates : List String) : String :=
  getFirstMetadataValueAux keyCandidates (getMetadataList manifest)

/-- Follows the words of the claim under scrutiny, not the source:
candidate-priority-major lookup, scanning the whole metadata list once
per candidate name, highest-priority candidate wins. -/
def candidateEntryScan (key : String) : List JVal → Option String
  | [] => none
  | entry :: rest =>
    let labelStr := iiifLabelToString (entry.getField "label")
    let valueStr := iiifLabelToString (entry.getField "value")
    if lowerStr labelStr = lowerStr key ∧ valueStr ≠ "" then some valueStr
    else candidateEntryScan key rest

/-- Candidate-priority-major variant of the metadata lookup (see
`candidateEntryScan`); only used to state what the spec claims. -/
def candidateMajorAux (metadata : List JVal) : List String → String
  | [] => ""
  | key :: keys =>
    match candidateEntryScan key metadata with
    | some v => v
    | none => candidateMajorAux metadata keys

/-- Candidate-priority-major metadata lookup, per the spec's words. -/
def candidateMajorFirstMetadataValue (manifest : JVal) (keyCandidates : List String) : String :=
  candidateMajorAux (getMetadataList manifest) keyCandidates

/-- The regex word class `\w`, `[A-Za-z0-9_]`. -/
def isWordChar (c : Char) : Bool := c.isAlpha || c.isDigit || c = '_'

/-- Does `ms\b` match at the head of the list: literal `"ms"` followed by
a word boundary (end of input or a non-word character)? -/
def msBoundaryAt : List Char → Bool
  | 'm' :: 's' :: [] => true
  | 'm' :: 's' :: c :: _ => !isWordChar c
  | _ => false

/-- Does `ms\b` match anywhere (regex search semantics)? -/
def hasMsBoundary : List Char → Bool
  | [] => false
  | l@(_ :: rest) => msBoundaryAt l || hasMsBoundary rest

/-- Embedding of `/manuscript|codex|ms\b/.test(s)`. -/
def testManuscriptRe (s : String) : Bool :=
  hasSubstr "manuscript".data s.data || hasSubstr "codex".data s.data ||
    hasMsBoundary s.data

/-- Embedding of `/article|journal|periodical/.test(s)`. -/
def testArticleRe (s : String) : Bool :=
  hasSubstr "article".data s.data || hasSubstr "journal".data s.data ||
    hasSubstr "periodical".data s.data

/-- Embedding of `inferTypeFromMetadata(manifest)`: infer a CSL type from label,
description and a `Type` metadata value, defaulting to `"book"`. -/
def inferTypeFromMetadata (manifest : JVal) : String :=
  let label := iiifLabelToString (manifest.getField "label")
  let descCandidates :=
    [iiifLabelToString (manifest.getField "description"),
     getFirstMetadataValue manifest ["Type", "type"]].filter (· ≠ "")
  let haystack := lowerStr (label ++ " " ++ joinWith " " descCandidates)
  if testManuscriptRe haystack then "manuscript"
  else if testArticleRe haystack then "article-journal"
  else "book"

/-- A CSL author object: `{given?, family?, literal?}`.  `""` stands for
an absent key (the only consumers default absent keys to `""`). -/
structure CSLAuthor where
  given : String := ""
  family : String := ""
  literal : String := ""
deriving Repr, DecidableEq

/-- The author-list separator class `[;\n]`. -/
def isAuthorSep (c : Char) : Bool := c = ';' || c = '\n'

/-- Given/family split of one trimmed name string: single token becomes
`{family}`, otherwise the last token is the family and the rest joined
by spaces is the given name. -/
def parseAuthorName (nameStr : String) : CSLAuthor :=
  let tokens := (splitOnRuns isJsWhitespace nameStr.data).map (fun l => (⟨l⟩ : String))
  match tokens with
  | [] => { family := "" }
  | [t] => { family := t }
  | ts => { given := joinWith " " ts.dropLast, family := ts.getLast?.getD "" }

/-- Embedding of `extractAuthors(manifest)`: the author metadata value split on
`[;\n]+` into trimmed non-empty name strings, each parsed by
`parseAuthorName`. -/
def extractAuthors (manifest : JVal) : List CSLAuthor :=
  let creatorsRaw := getFirstMetadataValue manifest
    ["Author", "Authors", "Creator", "Creators", "author", "creator"]
  if creatorsRaw = "" then []
  else
    let parts := ((splitOnRuns isAuthorSep creatorsRaw.data).map
      (fun l => jsTrim (⟨l⟩ : String))).filter (· ≠ "")
    parts.map parseAuthorName

/-- The separator class `[-\/\s]` of `CREATED_PUBLISHED_LABEL_RE`. -/
def isSepChar (c : Char) : Bool := c = '-' || c = '/' || isJsWhitespace c

/-- Does `\s*` followed by the literal word `w` match a prefix of `l`?
(`w` starts with a non-space character, so the greedy `\s*` is forced.) -/
def startsWithWsWord (w : List Char) (l : List Char) : Bool :=
  w.isPrefixOf (l.dropWhile isJsWhitespace)

/-- One alternative of `CREATED_PUBLISHED_LABEL_RE`:
`created(?!\s*by)|published(?!\s*(by|for))` at the head of the
(lower-cased) list; returns the remainder on a match. -/
def matchCreatedPublishedWord (l : List Char) : Option (List Char) :=
  if "created".data.isPrefixOf l then
    let rest := l.drop 7
    if startsWithWsWord "by".data rest then none else some rest
  else if "published".data.isPrefixOf l then
    let rest := l.drop 9
    if startsWithWsWord "by".data rest || startsWithWsWord "for".data rest then none
    else some rest
  else none

/-- Embedding of `CREATED_PUBLISHED_LABEL_RE.test(s)`: the anchored, case-insensitive
pattern `^W([-\/\s]+W)?$` with `W` as in `matchCreatedPublishedWord`.
The separator run before a second word is forced maximal because a word
starts with a non-separator character. -/
def matchesCreatedPublishedLabel (s : String) : Bool :=
  let l := s.data.map Char.toLower
  match matchCreatedPublishedWord l with
  | none => false
  | some rest =>
    if rest.isEmpty then true
    else
      let rest2 := rest.dropWhile isSepChar
      if rest2.length = rest.length then false
      else
        match matchCreatedPublishedWord rest2 with
        | some [] => true
        | _ => false

/-- The regex digit class `[0-9]`, by code point. -/
def isDigitChar (c : Char) : Bool := 48 ≤ c.toNat && c.toNat ≤ 57

/-- Does `(1[0-9]{3}|20[0-9]{2})` match at the head of the list?  Returns
the matched four characters as a string. -/
def matchYearAt : List Char → Option String
  | c0 :: c1 :: c2 :: c3 :: _ =>
    if c0 = '1' && isDigitChar c1 && isDigitChar c2 && isDigitChar c3 then
      some ⟨[c0, c1, c2, c3]⟩
    else if c0 = '2' && c1 = '0' && isDigitChar c2 && isDigitChar c3 then
      some ⟨[c0, c1, c2, c3]⟩
    else none
  | _ => none

/-- Embedding of `str.match(/(1[0-9]{3}|20[0-9]{2})/)`: first (leftmost) match. -/
def findYear : List Char → Option String
  | [] => none
  | l@(_ :: rest) =>
    match matchYearAt l with
    | some y => some y
    | none => findYear rest

/-- Step 2 of `extractDate`: scan metadata for a `Created…/Published…`
style label and take the first non-empty value under one.  (In the
source a matching entry with an empty value overwrites `dateStr` with
`""` and the loop continues, which is observationally the same.) -/
def scanCreatedPublished : List JVal → String
  | [] => ""
  | entry :: rest =>
    let labelStr := iiifLabelToString (entry.getField "label")
    if matchesCreatedPublishedLabel labelStr then
      let dateStr := iiifLabelToString (entry.getField "value")
      if dateStr ≠ "" then dateStr else scanCreatedPublished rest
    else scanCreatedPublished rest

/-- Embedding of `extractDate(manifest)`: locate a date string in trusted labels, then
created/published labels; pick out a year, falling back to the trimmed
string. -/
def extractDate (manifest : JVal) : String :=
  let dateStr0 := getFirstMetadataValue manifest
    ["Date", "Publication Date", "date", "Issued"]
  let dateStr :=
    if dateStr0 = "" then scanCreatedPublished (getMetadataList manifest) else dateStr0
  if dateStr = "" then ""
  else
    match findYear dateStr.data with
    | some y => y
    | none => jsTrim dateStr

/-- Embedding of `extractPublisher(manifest)` (the trailing `|| ""` of the source is
the identity on an already-string value). -/
def extractPublisher (manifest : JVal) : String :=
  getFirstMetadataValue manifest
    ["Publisher", "publisher", "Institution", "Holding Institution", "Repository"]

/-- Embedding of `pickId(obj)` of `extractHomepageURL`: the first of `id`, `@id`,
`href` that is present with a string value (even an empty one); `""` for
non-objects. -/
def pickId (obj : JVal) : String :=
  match obj with
  | .jobj _ =>
    match obj.getField "id" with
    | .jstr s => s
    | _ =>
      match obj.getField "@id" with
      | .jstr s => s
      | _ =>
        match obj.getField "href" with
        | .jstr s => s
        | _ => ""
  | _ => ""

/-- One homepage-like field (`homepage` or `related`): `some` when the
source's branch returns, `none` when control falls through.  A string is
returned directly; a non-empty array answers with its first element
(string, or an object's `pickId` when that is non-empty); a lone object
answers with its non-empty `pickId`. -/
def linkFieldToUrl (v : JVal) : Option String :=
  if v.truthy then
    match v with
    | .jstr s => some s
    | .jarr (first :: _) =>
      (match first with
       | .jstr s => some s
       | f =>
         let id := pickId f
         if id ≠ "" then some id else none)
    | .jarr [] =>
      let id := pickId (.jarr [])
      if id ≠ "" then some id else none
    | .jobj _ =>
      let id := pickId v
      if id ≠ "" then some id else none
    | _ => none
  else none

/-- Embedding of `extractHomepageURL(manifest, manifestUrl)`: v3 `homepage` first,
then v2 `related`; never falls back to the manifest URL. -/
def extractHomepageURL (manifest : JVal) (_manifestUrl : String) : String :=
  match linkFieldToUrl (manifest.getField "homepage") with
  | some s => s
  | none =>
    match linkFieldToUrl (manifest.getField "related") with
    | some s => s
    | none => ""

/-- The `label: value` lines of `buildIiifNote` (entries with both parts
empty are skipped; an empty label renders as `"?"`). -/
def metadataNoteLines : List JVal → List String
  | [] => []
  | entry :: rest =>
    let k := iiifLabelToString (entry.getField "label")
    let v := iiifLabelToString (entry.getField "value")
    if k ≠ "" || v ≠ "" then
      ((if k = "" then "?" else k) ++ ": " ++ v) :: metadataNoteLines rest
    else metadataNoteLines rest

/-- Embedding of `buildIiifNote(manifest, manifestUrl)`: fixed-format human-readable
metadata block. -/
def buildIiifNote (manifest : JVal) (manifestUrl : String) : String :=
  let lines := ["IIIF manifest metadata", "======================", ""]
  let lines := lines ++ (if manifestUrl ≠ "" then ["Manifest URL: " ++ manifestUrl] else [])
  let lines := lines ++ (if (manifest.getField "@id").truthy then
    ["@id: " ++ jsToString (manifest.getField "@id")] else [])
  let lines := lines ++ (if (manifest.getField "@context").truthy then
    ["@context: " ++ jsToString (manifest.getField "@context")] else [])
  let metadata := getMetadataList manifest
  let lines := lines ++ (if metadata.length > 0 then
    "" :: "IIIF metadata:" :: metadataNoteLines metadata else [])
  jsTrim (joinWith "\n" lines)

/-- Characters allowed in a URL scheme after the first letter. -/
def isSchemeChar (c : Char) : Bool :=
  c.isAlpha || c.isDigit || c = '+' || c = '-' || c = '.'

/-- The components the source reads off a parsed `URL` object. -/
structure ParsedUrl where
  scheme : String
  authority : String
  pathname : String
  search : String
  fragment : String
deriving Repr, DecidableEq

/-- Modelled from the platform `new URL(...)` constructor (an external
collaborator, not repository code): a simplified WHATWG parser for
absolute `scheme://authority/path?search#fragment` URLs.  Anything
without a `scheme "://" non-empty-authority` prefix is a parse failure,
standing for the constructor throwing on malformed or relative input.
Percent-encoding and dot-segment normalization are not modelled. -/
def parseUrl (s : String) : Option ParsedUrl :=
  let l := s.data
  let schemeChars := l.takeWhile isSchemeChar
  match l.head? with
  | none => none
  | some c0 =>
    if !c0.isAlpha then none
    else
      match l.drop schemeChars.length with
      | ':' :: '/' :: '/' :: rest2 =>
        let auth := rest2.takeWhile (fun c => !(c = '/' || c = '?' || c = '#'))
        if auth.isEmpty then none
        else
          let rest3 := rest2.drop auth.length
          let path := rest3.takeWhile (fun c => !(c = '?' || c = '#'))
          let rest4 := rest3.drop path.length
          let search := rest4.takeWhile (fun c => !(c = '#'))
          let frag := rest4.drop search.length
          some { scheme := ⟨schemeChars.map Char.toLower⟩,
                 authority := ⟨auth⟩,
                 pathname := if path.isEmpty then "/" else ⟨path⟩,
                 search := ⟨search⟩,
                 fragment := ⟨frag⟩ }
      | _ => none

/-- Embedding of `trimManifestDirectory(manifestUrl)`: drop the last path segment and
strip query/fragment; return the input unchanged when URL parsing
fails. -/
def trimManifestDirectory (manifestUrl : String) : String :=
  if manifestUrl = "" then ""
  else
    match parseUrl manifestUrl with
    | none => manifestUrl
    | some u =>
      let parts := (splitOnChar '/' u.pathname.data).map (fun l => (⟨l⟩ : String))
      let parts := if parts.length > 1 ∧ parts.getLast? = some "" then parts.dropLast else parts
      let parts := if parts.length > 1 then parts.dropLast else parts
      let newPath := joinWith "/" parts
      let newPath := if "/".data.isPrefixOf newPath.data then newPath else "/" ++ newPath
      u.scheme ++ "://" ++ u.authority ++ newPath

/-- Embedding of `extractIdFromManifest(manifest, manifestUrl)`: `@id`, then `id`,
then the source URL, then the normalized label, then `""` (returning the
label subsumes the source's final `if (label) return label; return ""`). -/
def extractIdFromManifest (manifest : JVal) (manifestUrl : String) : String :=
  if (manifest.getField "@id").truthy then jsToString (manifest.getField "@id")
  else if (manifest.getField "id").truthy then jsToString (manifest.getField "id")
  else if manifestUrl ≠ "" then manifestUrl
  else iiifLabelToString (manifest.getField "label")

/-- A CSL `issued` date part: an element of the inner `date-parts`
array. -/
inductive DVal where
  | dnull : DVal
  | dnum : Int → DVal
  | dstr : String → DVal
deriving Repr, DecidableEq

/-- A CSL-JSON item, the Citation Record.  String fields use `""` for an
absent key — every consumer in the source reads them through falsiness
checks or `|| ""`, under which the two agree.  `issued` holds the inner
value of the `{"date-parts": …}` wrapper, `none` when absent. -/
structure CSLItem where
  id : String := ""
  type : String := ""
  title : String := ""
  URL : String := ""
  author : List CSLAuthor := []
  issued : Option (List (List DVal)) := none
  publisher : String := ""
  note : String := ""
  archive : String := ""
  archive_location : String := ""
  collection_title : String := ""
deriving Repr, DecidableEq

/-- JavaScript `a || b` on strings (`""` is the only falsy string). -/
def strOr (a b : String) : String := if a = "" then b else a

/-- Embedding of `manifestToCSLItem(manifest, manifestUrl)`.  The `URL` field's
`homepage || manifest["@id"] || manifest.id || trimmedManifestUrl || ""`
chain over JSON values is modelled on stringified values: a truthy `@id`
or `id` contributes its `String(…)` rendering. -/
def manifestToCSLItem (manifest : JVal) (manifestUrl : String) : CSLItem :=
  let title := strOr (iiifLabelToString (manifest.getField "label"))
    (strOr (extractIdFromManifest manifest manifestUrl) "[untitled IIIF manifest]")
  let id := strOr (extractIdFromManifest manifest manifestUrl) title
  let authors := extractAuthors manifest
  let issued := extractDate manifest
  let publisher := extractPublisher manifest
  let type := inferTypeFromMetadata manifest
  let homepage := extractHomepageURL manifest manifestUrl
  let note := buildIiifNote manifest manifestUrl
  let trimmedManifestUrl := trimManifestDirectory manifestUrl
  { id := id, type := type, title := title,
    URL := strOr homepage
      (strOr (if (manifest.getField "@id").truthy then jsToString (manifest.getField "@id") else "")
        (strOr (if (manifest.getField "id").truthy then jsToString (manifest.getField "id") else "")
          (strOr trimmedManifestUrl ""))),
    author := authors,
    issued := if issued ≠ "" then some [[.dstr issued]] else none,
    publisher := publisher,
    note := note }

/-- Outcome of the external retrieval collaborator for one URL: a thrown
network/timeout error, a non-ok HTTP status, or the body text together
with its `JSON.parse` outcome. -/
inductive FetchResult where
  | netError : FetchResult
  | httpError : Nat → FetchResult
  | success : String → Option JVal → FetchResult

/-- Embedding of `fetchManifest(url)` against a retrieval environment: non-ok status
and network errors throw; an ok body must pass the IIIF sniff test and
parse as JSON. -/
def fetchManifest (env : String → FetchResult) (url : String) : Except String JVal :=
  match env url with
  | .netError => .error ("fetch failed for " ++ url)
  | .httpError status => .error ("HTTP " ++ toString status ++ " for " ++ url)
  | .success text parsed =>
    if !looksLikeIIIFManifest text then
      .error ("Not a IIIF Presentation manifest: " ++ url)
    else
      match parsed with
      | some manifest => .ok manifest
      | none => .error ("JSON.parse failed for " ++ url)

/-- Embedding of `iiifManifestUrlsToCSL(manifestUrls)`: for each URL in order, skip
falsy entries, convert successfully fetched manifests, and swallow
per-URL errors. -/
def iiifManifestUrlsToCSL (env : String → FetchResult) : List String → List CSLItem
  | [] => []
  | url :: rest =>
    if url = "" then iiifManifestUrlsToCSL env rest
    else
      match fetchManifest env url with
      | .ok manifest => manifestToCSLItem manifest url :: iiifManifestUrlsToCSL env rest
      | .error _ => iiifManifestUrlsToCSL env rest

/-- The CLI's fixed CSL-type → catalog-item-type table: the own
properties of the `MAP` object literal. -/
def zoteroTypeMap : List (String × String) :=
  [("book", "book"), ("article-journal", "journalArticle"), ("manuscript", "manuscript")]

/-- Value of the source's `MAP[t]`-or-default expression: a string (an
own-property hit or the `"book"` default), or one of the two
`Object.prototype` members that bracket access on the plain `MAP`
object literal reaches through an all-lower-case key — the inherited
`constructor` function and the `__proto__` prototype object.  Both are
truthy, so `if (MAP[t]) return MAP[t]` returns them. -/
inductive ZItemType where
  | zstring : String → ZItemType
  | objectCtor : ZItemType
  | objectProto : ZItemType
deriving Repr, DecidableEq

/-- Embedding of `mapCslTypeToZoteroItemType(cslType)`: `MAP[t]` first
hits the literal's own properties (the fixed table); failing that, the
lookup continues along the prototype chain to `Object.prototype`, whose
only members with all-lower-case names are `constructor` and
`__proto__` — every other inherited name (`toString`, `valueOf`,
`hasOwnProperty`, …) contains an upper-case letter and is unreachable
after `toLowerCase()`.  Those two hits are truthy and are returned as
the item type; everything else is `undefined` and falls to the
conservative `"book"` default. -/
def mapCslTypeToZoteroItemType (cslType : String) : ZItemType :=
  let t := lowerStr cslType
  match zoteroTypeMap.lookup t with
  | some v => .zstring v
  | none =>
    if t = "constructor" then .objectCtor
    else if t = "__proto__" then .objectProto
    else .zstring "book"

/-- A catalog (Zotero) creator record. -/
structure Creator where
  creatorType : String
  firstName : String
  lastName : String
deriving Repr, DecidableEq

/-- Loop body of `mapCslAuthorsToCreators` over the author list. -/
def creatorsOfAuthors : List CSLAuthor → List Creator
  | [] => []
  | a :: rest =>
    let given := jsTrim a.given
    let family := jsTrim a.family
    let literal := jsTrim a.literal
    if family ≠ "" || given ≠ "" then
      { creatorType := "author", firstName := given,
        lastName := if family ≠ "" then family else given } :: creatorsOfAuthors rest
    else if literal ≠ "" then
      { creatorType := "author", firstName := "", lastName := literal } :: creatorsOfAuthors rest
    else creatorsOfAuthors rest

/-- Embedding of `mapCslAuthorsToCreators(cslItem)` (the `Array.isArray` guard of the
source is subsumed by `author` being a list, `[]` when absent). -/
def mapCslAuthorsToCreators (cslItem : CSLItem) : List Creator :=
  creatorsOfAuthors cslItem.author

/-- Truthiness of a date part. -/
def DVal.truthy : DVal → Bool
  | .dnull => false
  | .dnum n => n != 0
  | .dstr s => s ≠ ""

/-- Embedding of `String(v)` of a date part. -/
def DVal.render : DVal → String
  | .dnull => "null"
  | .dnum n => toString n
  | .dstr s => s

/-- Embedding of `String.prototype.padStart(2, "0")`. -/
def padStart2 (s : String) : String :=
  if s.data.length ≥ 2 then s else ⟨List.replicate (2 - s.data.length) '0' ++ s.data⟩

/-- Embedding of `mapCslIssuedToZoteroDate(cslItem)`: flatten
`{"date-parts": [[y, m, d]]}` to `YYYY[-MM[-DD]]`; `""` when there is no
truthy year.  A missing or `null` month (or day) stops the flattening
(`m != null` in the source, with `null`/`undefined` conflated). -/
def mapCslIssuedToZoteroDate (cslItem : CSLItem) : String :=
  match cslItem.issued with
  | none => ""
  | some dateParts =>
    match dateParts with
    | [] => ""
    | parts :: _ =>
      match parts with
      | [] => ""
      | y :: restP =>
        if !y.truthy then ""
        else
          let out := y.render
          match restP with
          | [] => out
          | m :: restP2 =>
            if m = .dnull then out
            else
              let out := out ++ "-" ++ padStart2 m.render
              match restP2 with
              | [] => out
              | d :: _ =>
                if d = .dnull then out
                else out ++ "-" ++ padStart2 d.render

/-- A value of a catalog-item field: a string, the creators list, or
the item-type value (which for two pathological type names is an
inherited non-string object, see `ZItemType`). -/
inductive ZVal where
  | zstr : String → ZVal
  | zcreators : List Creator → ZVal
  | zitem : ZItemType → ZVal
deriving Repr, DecidableEq

/-- One conditional key assignment `if (cond) item.key = v`. -/
def optEntry (key : String) (cond : Bool) (v : ZVal) : List (String × ZVal) :=
  if cond then [(key, v)] else []

/-- Embedding of `cslToZoteroItem(cslItem)`: the catalog item as the ordered key/value
assignments the source performs; unconditional keys first, then each
conditional field exactly when its source value is truthy. -/
def cslToZoteroItem (cslItem : CSLItem) : List (String × ZVal) :=
  let dateStr := mapCslIssuedToZoteroDate cslItem
  ("itemType", .zitem (mapCslTypeToZoteroItemType cslItem.type)) ::
  ("title", .zstr (strOr cslItem.title "[untitled]")) ::
  ("creators", .zcreators (mapCslAuthorsToCreators cslItem)) ::
  (optEntry "date" (dateStr ≠ "") (.zstr dateStr) ++
   (optEntry "publisher" (cslItem.publisher ≠ "") (.zstr cslItem.publisher) ++
    (optEntry "archive" (cslItem.archive ≠ "") (.zstr cslItem.archive) ++
     (optEntry "archiveLocation" (cslItem.archive_location ≠ "") (.zstr cslItem.archive_location) ++
      (optEntry "libraryCatalog" (cslItem.collection_title ≠ "") (.zstr cslItem.collection_title) ++
       (optEntry "url" (cslItem.URL ≠ "") (.zstr cslItem.URL) ++
        optEntry "extra" (cslItem.note ≠ "") (.zstr cslItem.note)))))))

/-! ## Helper lemmas -/

theorem dropWhile_self_dropWhile (p : Char → Bool) (l : List Char) :
    (l.dropWhile p).dropWhile p = l.dropWhile p := by
  induction l with
  | nil => rfl
  | cons c t ih =>
    by_cases h : p c
    · simp [List.dropWhile_cons, h, ih]
    · simp [List.dropWhile_cons, h]

theorem dropWhile_is_suffix (p : Char → Bool) (l : List Char) :
    ∃ pre, pre ++ l.dropWhile p = l := by
  induction l with
  | nil => exact ⟨[], rfl⟩
  | cons c t ih =>
    by_cases h : p c
    · obtain ⟨pre, hp⟩ := ih
      exact ⟨c :: pre, by simp [List.dropWhile_cons, h, hp]⟩
    · exact ⟨[], by simp [List.dropWhile_cons, h]⟩

theorem dropWhile_length_le (p : Char → Bool) (l : List Char) :
    (l.dropWhile p).length ≤ l.length := by
  induction l with
  | nil => simp
  | cons c t ih =>
    by_cases h : p c
    · simp only [List.dropWhile_cons, if_pos h, List.length_cons]
      omega
    · simp [List.dropWhile_cons, h]

theorem dropWhile_eq_self_of_front (p : Char → Bool) {x A : List Char}
    (hA : A.dropWhile p = A) (hx : ∃ r, x ++ r = A) : x.dropWhile p = x := by
  obtain ⟨r, hr⟩ := hx
  cases x with
  | nil => rfl
  | cons c t =>
    have hc : ¬ p c = true := by
      intro hc
      rw [← hr, List.cons_append, List.dropWhile_cons, if_pos hc] at hA
      have hlen := congrArg List.length hA
      have hle : ((t ++ r).dropWhile p).length ≤ (t ++ r).length :=
        dropWhile_length_le p (t ++ r)
      rw [List.length_cons] at hlen
      omega
    simp [List.dropWhile_cons, hc]

theorem jsTrimChars_idem (l : List Char) : jsTrimChars (jsTrimChars l) = jsTrimChars l := by
  unfold jsTrimChars trimLeftChars
  have hAdw : ((l.dropWhile isJsWhitespace).dropWhile isJsWhitespace)
      = l.dropWhile isJsWhitespace := dropWhile_self_dropWhile _ l
  have hBpre : ∃ r,
      ((l.dropWhile isJsWhitespace).reverse.dropWhile isJsWhitespace).reverse ++ r
        = l.dropWhile isJsWhitespace := by
    obtain ⟨pre, hpre⟩ := dropWhile_is_suffix isJsWhitespace (l.dropWhile isJsWhitespace).reverse
    refine ⟨pre.reverse, ?_⟩
    have h2 := congrArg List.reverse hpre
    simpa using h2
  have h1 := dropWhile_eq_self_of_front isJsWhitespace hAdw hBpre
  rw [h1, List.reverse_reverse, dropWhile_self_dropWhile]

theorem jsTrim_idem (s : String) : jsTrim (jsTrim s) = jsTrim s :=
  congrArg String.mk (jsTrimChars_idem s.data)

theorem iiifLabelToString_jstr (s : String) : iiifLabelToString (.jstr s) = jsTrim s := by
  by_cases h : s = ""
  · subst h; rfl
  · simp [iiifLabelToString, JVal.truthy, h]

/-! ## Claim theorems -/

/-- C8: label normalization is idempotent — normalizing an
already-normalized value returns it unchanged, and normalizing a plain
string returns it trimmed with content unchanged. -/
theorem normalizeLabel_idempotent (s : String) :
    iiifLabelToString (.jstr (iiifLabelToString (.jstr s))) = iiifLabelToString (.jstr s)
    ∧ iiifLabelToString (.jstr s) = jsTrim s := by
  refine ⟨?_, iiifLabelToString_jstr s⟩
  rw [iiifLabelToString_jstr, iiifLabelToString_jstr, jsTrim_idem]

theorem strOr_ne_empty (a b : String) (hb : b ≠ "") : strOr a b ≠ "" := by
  unfold strOr
  split
  · exact hb
  · assumption

/-- C2: for every manifest object and source URL, the produced Citation
Record's `title` and `id` are non-empty (`title` falls back through the
manifest identifier, the URL, or the literal placeholder; `id` defaults
to `title`). -/
theorem manifestToCSLItem_title_id_nonempty (fs : List (String × JVal)) (url : String) :
    (manifestToCSLItem (.jobj fs) url).title ≠ ""
    ∧ (manifestToCSLItem (.jobj fs) url).id ≠ "" := by
  have htitle : (manifestToCSLItem (.jobj fs) url).title =
      strOr (iiifLabelToString ((JVal.jobj fs).getField "label"))
        (strOr (extractIdFromManifest (.jobj fs) url) "[untitled IIIF manifest]") := rfl
  have hid : (manifestToCSLItem (.jobj fs) url).id =
      strOr (extractIdFromManifest (.jobj fs) url)
        ((manifestToCSLItem (.jobj fs) url).title) := rfl
  have ht : (manifestToCSLItem (.jobj fs) url).title ≠ "" := by
    rw [htitle]
    exact strOr_ne_empty _ _ (strOr_ne_empty _ _ (by decide))
  exact ⟨ht, by rw [hid]; exact strOr_ne_empty _ _ ht⟩

/-- C5: type inference lower-cases the concatenation of normalized
label, description and `Type` metadata value and applies the
`manuscript`/`article-journal`/`book` rules in that priority; a label
containing both "manuscript" and "journal" infers `manuscript`. -/
theorem inferTypeFromMetadata_priority (m : JVal) :
    (inferTypeFromMetadata m =
      (let haystack := lowerStr
        (iiifLabelToString (m.getField "label") ++ " " ++
          joinWith " " ([iiifLabelToString (m.getField "description"),
            getFirstMetadataValue m ["Type", "type"]].filter (· ≠ "")))
       if testManuscriptRe haystack then "manuscript"
       else if testArticleRe haystack then "article-journal"
       else "book"))
    ∧ inferTypeFromMetadata (.jobj [("label", .jstr "Manuscript journal")]) = "manuscript"
    ∧ inferTypeFromMetadata (.jobj [("label", .jstr "The Journal of X")]) = "article-journal"
    ∧ inferTypeFromMetadata (.jobj [("label", .jstr "A plain title")]) = "book" := by
  refine ⟨rfl, by decide, by decide, by decide⟩

/-- C6 (amended): the catalog `itemType` is the case-insensitive
fixed-table image of the record's `type`; an unmapped or missing type
yields `"book"`, except that the lower-cased type names `"constructor"`
and `"__proto__"` hit truthy `Object.prototype`-inherited properties of
the table object and that inherited non-string value is returned
instead; in particular `"article-journal"` maps to `"journalArticle"`
and the unrecognized `"dataset"` maps to `"book"`. -/
theorem mapCslTypeToZoteroItemType_table (c : CSLItem) :
    ((cslToZoteroItem c).lookup "itemType" = some (.zitem (mapCslTypeToZoteroItemType c.type)))
    ∧ (∀ t : String, mapCslTypeToZoteroItemType t =
        if lowerStr t = "book" then .zstring "book"
        else if lowerStr t = "article-journal" then .zstring "journalArticle"
        else if lowerStr t = "manuscript" then .zstring "manuscript"
        else if lowerStr t = "constructor" then .objectCtor
        else if lowerStr t = "__proto__" then .objectProto
        else .zstring "book")
    ∧ mapCslTypeToZoteroItemType "article-journal" = .zstring "journalArticle"
    ∧ mapCslTypeToZoteroItemType "Article-Journal" = .zstring "journalArticle"
    ∧ mapCslTypeToZoteroItemType "dataset" = .zstring "book"
    ∧ mapCslTypeToZoteroItemType "" = .zstring "book" := by
  refine ⟨rfl, ?_, by decide, by decide, by decide, by decide⟩
  intro t
  unfold mapCslTypeToZoteroItemType zoteroTypeMap
  by_cases h1 : lowerStr t = "book"
  · simp [List.lookup, h1]
  · by_cases h2 : lowerStr t = "article-journal"
    · simp [List.lookup, h1, h2]
    · by_cases h3 : lowerStr t = "manuscript"
      · simp [List.lookup, h1, h2, h3]
      · have hb1 : (lowerStr t == "book") = false := beq_eq_false_iff_ne.mpr h1
        have hb2 : (lowerStr t == "article-journal") = false := beq_eq_false_iff_ne.mpr h2
        have hb3 : (lowerStr t == "manuscript") = false := beq_eq_false_iff_ne.mpr h3
        by_cases h4 : lowerStr t = "constructor"
        · simp [List.lookup, h1, h2, h3, h4, hb1, hb2, hb3]
        · by_cases h5 : lowerStr t = "__proto__"
          · simp [List.lookup, h1, h2, h3, h4, h5, hb1, hb2, hb3]
          · simp [List.lookup, h1, h2, h3, h4, h5, hb1, hb2, hb3]

/-- C6 counterexample: `"constructor"` and `"__proto__"` (and their case
variants) are not in the fixed table, yet the code does not yield
`"book"` for them — `MAP[t]` finds the truthy inherited
`Object.prototype` members and returns those non-string values, so "any
unmapped type yields book" is false on the program. -/
theorem mapCslTypeToZoteroItemType_prototype_counterexample :
    zoteroTypeMap.lookup "constructor" = none
    ∧ zoteroTypeMap.lookup "__proto__" = none
    ∧ mapCslTypeToZoteroItemType "constructor" = .objectCtor
    ∧ mapCslTypeToZoteroItemType "Constructor" = .objectCtor
    ∧ mapCslTypeToZoteroItemType "__proto__" = .objectProto
    ∧ mapCslTypeToZoteroItemType "constructor" ≠ .zstring "book"
    ∧ mapCslTypeToZoteroItemType "__proto__" ≠ .zstring "book" := by
  exact ⟨rfl, rfl, rfl, rfl, rfl, by decide, by decide⟩

theorem creatorsOfAuthors_eq_filterMap (as : List CSLAuthor) :
    creatorsOfAuthors as = as.filterMap (fun a =>
      let given := jsTrim a.given
      let family := jsTrim a.family
      let literal := jsTrim a.literal
      if family ≠ "" || given ≠ "" then
        some { creatorType := "author", firstName := given,
               lastName := if family ≠ "" then family else given }
      else if literal ≠ "" then
        some { creatorType := "author", firstName := "", lastName := literal }
      else none) := by
  induction as with
  | nil => rfl
  | cons a rest ih =>
    simp only [creatorsOfAuthors, List.filterMap_cons]
    split
    · simp only [ih]
    · split
      · simp only [ih]
      · simp only [ih]

theorem creatorsOfAuthors_mem (cr : Creator) (as : List CSLAuthor)
    (h : cr ∈ creatorsOfAuthors as) : cr.creatorType = "author" ∧ cr.lastName ≠ "" := by
  induction as with
  | nil => simp [creatorsOfAuthors] at h
  | cons a rest ih =>
    simp only [creatorsOfAuthors] at h
    by_cases hng : (jsTrim a.family ≠ "" || jsTrim a.given ≠ "") = true
    · rw [if_pos hng] at h
      rcases List.mem_cons.mp h with heq | hmem
      · subst heq
        refine ⟨rfl, ?_⟩
        simp only [Bool.or_eq_true, decide_eq_true_eq] at hng
        by_cases hfam : jsTrim a.family ≠ ""
        · simp [hfam]
        · simp only [hfam, if_neg]
          simpa [hfam] using hng.resolve_left hfam
      · exact ih hmem
    · rw [if_neg hng] at h
      by_cases hlit : (jsTrim a.literal ≠ "") = True
      · rw [if_pos (by simpa using hlit)] at h
        rcases List.mem_cons.mp h with heq | hmem
        · subst heq
          exact ⟨rfl, by simpa using hlit⟩
        · exact ih hmem
      · rw [if_neg (by simpa using hlit)] at h
        exact ih h

theorem creatorsOfAuthors_all_named (as : List CSLAuthor) :
    (creatorsOfAuthors as).all
      (fun cr => cr.creatorType = "author" && cr.lastName ≠ "") = true := by
  rw [List.all_eq_true]
  intro x hx
  have hmem := creatorsOfAuthors_mem x as hx
  simp only [Bool.and_eq_true, decide_eq_true_eq]
  exact hmem

/-- C7: creator mapping trims `given`/`family`/`literal` per author and
emits `{author, given, family-or-given}` when a name part is present,
`{author, "", literal}` when only `literal` is, and skips the author
otherwise, preserving order (a `filterMap`); no emitted creator has an
empty `lastName` or a `creatorType` other than `"author"`. -/
theorem mapCslAuthorsToCreators_spec (c : CSLItem) :
    (mapCslAuthorsToCreators c = c.author.filterMap (fun a =>
      let given := jsTrim a.given
      let family := jsTrim a.family
      let literal := jsTrim a.literal
      if family ≠ "" || given ≠ "" then
        some { creatorType := "author", firstName := given,
               lastName := if family ≠ "" then family else given }
      else if literal ≠ "" then
        some { creatorType := "author", firstName := "", lastName := literal }
      else none))
    ∧ (mapCslAuthorsToCreators c).all
        (fun cr => cr.creatorType = "author" && cr.lastName ≠ "") = true :=
  ⟨creatorsOfAuthors_eq_filterMap c.author, creatorsOfAuthors_all_named c.author⟩

theorem lookup_cons_skip (k key : String) (v : ZVal) (rest : List (String × ZVal))
    (h : (k == key) = false) : ((key, v) :: rest).lookup k = rest.lookup k := by
  simp [List.lookup, h]

theorem lookup_optEntry_skip (k key : String) (b : Bool) (v : ZVal)
    (rest : List (String × ZVal)) (h : (k == key) = false) :
    (optEntry key b v ++ rest).lookup k = rest.lookup k := by
  cases b <;> simp [optEntry, List.lookup, h]

theorem lookup_optEntry_head (k : String) (b : Bool) (v : ZVal)
    (rest : List (String × ZVal)) :
    (optEntry k b v ++ rest).lookup k = if b then some v else rest.lookup k := by
  cases b <;> simp [optEntry, List.lookup]

theorem lookup_optEntry_last (k : String) (b : Bool) (v : ZVal) :
    (optEntry k b v).lookup k = if b then some v else none := by
  cases b <;> simp [optEntry, List.lookup]

theorem lookup_optEntry_alone_skip (k key : String) (b : Bool) (v : ZVal)
    (h : (k == key) = false) : (optEntry key b v).lookup k = none := by
  cases b <;> simp [optEntry, List.lookup, h]

/-- C10: the catalog item record always contains the keys `itemType`,
`title` and `creators` — `creators` as a (possibly empty) sequence —
while `date`, `publisher`, `archive`, `archiveLocation`,
`libraryCatalog`, `url` and `extra` are present exactly when their
source values are non-empty (for `date`, when the flattened `issued`
date string is non-empty). -/
theorem cslToZoteroItem_key_presence (c : CSLItem) :
    ((cslToZoteroItem c).lookup "itemType"
        = some (.zitem (mapCslTypeToZoteroItemType c.type)))
    ∧ ((cslToZoteroItem c).lookup "title" = some (.zstr (strOr c.title "[untitled]")))
    ∧ ((cslToZoteroItem c).lookup "creators"
        = some (.zcreators (mapCslAuthorsToCreators c)))
    ∧ (((cslToZoteroItem c).lookup "date").isSome ↔ mapCslIssuedToZoteroDate c ≠ "")
    ∧ (((cslToZoteroItem c).lookup "publisher").isSome ↔ c.publisher ≠ "")
    ∧ (((cslToZoteroItem c).lookup "archive").isSome ↔ c.archive ≠ "")
    ∧ (((cslToZoteroItem c).lookup "archiveLocation").isSome ↔ c.archive_location ≠ "")
    ∧ (((cslToZoteroItem c).lookup "libraryCatalog").isSome ↔ c.collection_title ≠ "")
    ∧ (((cslToZoteroItem c).lookup "url").isSome ↔ c.URL ≠ "")
    ∧ (((cslToZoteroItem c).lookup "extra").isSome ↔ c.note ≠ "") := by
  refine ⟨rfl, rfl, rfl, ?_, ?_, ?_, ?_, ?_, ?_, ?_⟩
  · simp only [cslToZoteroItem]
    rw [lookup_cons_skip "date" "itemType" _ _ (by decide),
      lookup_cons_skip "date" "title" _ _ (by decide),
      lookup_cons_skip "date" "creators" _ _ (by decide),
      lookup_optEntry_head,
      lookup_optEntry_skip "date" "publisher" _ _ _ (by decide),
      lookup_optEntry_skip "date" "archive" _ _ _ (by decide),
      lookup_optEntry_skip "date" "archiveLocation" _ _ _ (by decide),
      lookup_optEntry_skip "date" "libraryCatalog" _ _ _ (by decide),
      lookup_optEntry_skip "date" "url" _ _ _ (by decide),
      lookup_optEntry_alone_skip "date" "extra" _ _ (by decide)]
    by_cases hb : mapCslIssuedToZoteroDate c ≠ "" <;> simp [hb]
  · simp only [cslToZoteroItem]
    rw [lookup_cons_skip "publisher" "itemType" _ _ (by decide),
      lookup_cons_skip "publisher" "title" _ _ (by decide),
      lookup_cons_skip "publisher" "creators" _ _ (by decide),
      lookup_optEntry_skip "publisher" "date" _ _ _ (by decide),
      lookup_optEntry_head,
      lookup_optEntry_skip "publisher" "archive" _ _ _ (by decide),
      lookup_optEntry_skip "publisher" "archiveLocation" _ _ _ (by decide),
      lookup_optEntry_skip "publisher" "libraryCatalog" _ _ _ (by decide),
      lookup_optEntry_skip "publisher" "url" _ _ _ (by decide),
      lookup_optEntry_alone_skip "publisher" "extra" _ _ (by decide)]
    by_cases hb : c.publisher ≠ "" <;> simp [hb]
  · simp only [cslToZoteroItem]
    rw [lookup_cons_skip "archive" "itemType" _ _ (by decide),
      lookup_cons_skip "archive" "title" _ _ (by decide),
      lookup_cons_skip "archive" "creators" _ _ (by decide),
      lookup_optEntry_skip "archive" "date" _ _ _ (by decide),
      lookup_optEntry_skip "archive" "publisher" _ _ _ (by decide),
      lookup_optEntry_head,
      lookup_optEntry_skip "archive" "archiveLocation" _ _ _ (by decide),
      lookup_optEntry_skip "archive" "libraryCatalog" _ _ _ (by decide),
      lookup_optEntry_skip "archive" "url" _ _ _ (by decide),
      lookup_optEntry_alone_skip "archive" "extra" _ _ (by decide)]
    by_cases hb : c.archive ≠ "" <;> simp [hb]
  · simp only [cslToZoteroItem]
    rw [lookup_cons_skip "archiveLocation" "itemType" _ _ (by decide),
      lookup_cons_skip "archiveLocation" "title" _ _ (by decide),
      lookup_cons_skip "archiveLocation" "creators" _ _ (by decide),
      lookup_optEntry_skip "archiveLocation" "date" _ _ _ (by decide),
      lookup_optEntry_skip "archiveLocation" "publisher" _ _ _ (by decide),
      lookup_optEntry_skip "archiveLocation" "archive" _ _ _ (by decide),
      lookup_optEntry_head,
      lookup_optEntry_skip "archiveLocation" "libraryCatalog" _ _ _ (by decide),
      lookup_optEntry_skip "archiveLocation" "url" _ _ _ (by decide),
      lookup_optEntry_alone_skip "archiveLocation" "extra" _ _ (by decide)]
    by_cases hb : c.archive_location ≠ "" <;> simp [hb]
  · simp only [cslToZoteroItem]
    rw [lookup_cons_skip "libraryCatalog" "itemType" _ _ (by decide),
      lookup_cons_skip "libraryCatalog" "title" _ _ (by decide),
      lookup_cons_skip "libraryCatalog" "creators" _ _ (by decide),
      lookup_optEntry_skip "libraryCatalog" "date" _ _ _ (by decide),
      lookup_optEntry_skip "libraryCatalog" "publisher" _ _ _ (by decide),
      lookup_optEntry_skip "libraryCatalog" "archive" _ _ _ (by decide),
      lookup_optEntry_skip "libraryCatalog" "archiveLocation" _ _ _ (by decide),
      lookup_optEntry_head,
      lookup_optEntry_skip "libraryCatalog" "url" _ _ _ (by decide),
      lookup_optEntry_alone_skip "libraryCatalog" "extra" _ _ (by decide)]
    by_cases hb : c.collection_title ≠ "" <;> simp [hb]
  · simp only [cslToZoteroItem]
    rw [lookup_cons_skip "url" "itemType" _ _ (by decide),
      lookup_cons_skip "url" "title" _ _ (by decide),
      lookup_cons_skip "url" "creators" _ _ (by decide),
      lookup_optEntry_skip "url" "date" _ _ _ (by decide),
      lookup_optEntry_skip "url" "publisher" _ _ _ (by decide),
      lookup_optEntry_skip "url" "archive" _ _ _ (by decide),
      lookup_optEntry_skip "url" "archiveLocation" _ _ _ (by decide),
      lookup_optEntry_skip "url" "libraryCatalog" _ _ _ (by decide),
      lookup_optEntry_head,
      lookup_optEntry_alone_skip "url" "extra" _ _ (by decide)]
    by_cases hb : c.URL ≠ "" <;> simp [hb]
  · simp only [cslToZoteroItem]
    rw [lookup_cons_skip "extra" "itemType" _ _ (by decide),
      lookup_cons_skip "extra" "title" _ _ (by decide),
      lookup_cons_skip "extra" "creators" _ _ (by decide),
      lookup_optEntry_skip "extra" "date" _ _ _ (by decide),
      lookup_optEntry_skip "extra" "publisher" _ _ _ (by decide),
      lookup_optEntry_skip "extra" "archive" _ _ _ (by decide),
      lookup_optEntry_skip "extra" "archiveLocation" _ _ _ (by decide),
      lookup_optEntry_skip "extra" "libraryCatalog" _ _ _ (by decide),
      lookup_optEntry_skip "extra" "url" _ _ _ (by decide),
      lookup_optEntry_last]
    by_cases hb : c.note ≠ "" <;> simp [hb]

theorem firstKeyMatch_eq (labelStr valueStr : String) (cands : List String) :
    firstKeyMatch labelStr valueStr cands =
      (if (cands.any fun key => lowerStr labelStr = lowerStr key) ∧ valueStr ≠ ""
       then some valueStr else none) := by
  induction cands with
  | nil => simp [firstKeyMatch]
  | cons key keys ih =>
    simp only [firstKeyMatch, List.any_cons]
    by_cases hm : lowerStr labelStr = lowerStr key
    · by_cases hv : valueStr ≠ ""
      · simp [hm, hv]
      · simp [hm, hv, ih]
    · simp [hm, ih]

theorem getFirstMetadataValueAux_eq_find (cands : List String) (l : List JVal) :
    getFirstMetadataValueAux cands l =
      (match l.find? (fun entry =>
          (cands.any fun key =>
            lowerStr (iiifLabelToString (entry.getField "label")) = lowerStr key)
          && iiifLabelToString (entry.getField "value") ≠ "") with
       | some entry => iiifLabelToString (entry.getField "value")
       | none => "") := by
  induction l with
  | nil => rfl
  | cons entry rest ih =>
    simp only [getFirstMetadataValueAux, firstKeyMatch_eq]
    by_cases h1 : (cands.any fun key =>
        lowerStr (iiifLabelToString (entry.getField "label")) = lowerStr key) = true
    · by_cases h2 : iiifLabelToString (entry.getField "value") ≠ ""
      · rw [if_pos ⟨h1, h2⟩, List.find?_cons_of_pos _ (by simp [h1, h2])]
      · rw [if_neg (by simp [h2]), List.find?_cons_of_neg _ (by simp [h2])]
        exact ih
    · rw [if_neg (by simp [h1]), List.find?_cons_of_neg _ (by simp [h1])]
      exact ih

/-- C3 (amended): Metadata Lookup returns the value of the first entry
in metadata document order whose normalized label case-insensitively
equals any candidate name and whose normalized value is non-empty (`""`
when there is none); document order — not candidate priority — decides
between differently-labeled matching entries, and the candidate list
only matters through membership. -/
theorem getFirstMetadataValue_document_order (m : JVal) (cands : List String) :
    getFirstMetadataValue m cands =
      (match (getMetadataList m).find? (fun entry =>
          (cands.any fun key =>
            lowerStr (iiifLabelToString (entry.getField "label")) = lowerStr key)
          && iiifLabelToString (entry.getField "value") ≠ "") with
       | some entry => iiifLabelToString (entry.getField "value")
       | none => "") :=
  getFirstMetadataValueAux_eq_find cands (getMetadataList m)

/-- A manifest whose metadata has a `Creator` entry before an `Author`
entry, both with non-empty values. -/
def metadataPriorityManifest : JVal := .jobj [("metadata", .jarr [
  .jobj [("label", .jstr "Creator"), ("value", .jstr "Curator Cathy")],
  .jobj [("label", .jstr "Author"), ("value", .jstr "Author Alice")]])]

/-- C3 counterexample: with candidates `["Author", "Creator"]` (Author
first), the code returns the `Creator` entry's value because that entry
comes first in document order; the candidate-priority-major reading of
the claim would return the `Author` entry's value.  Candidate priority
therefore does not control which entry wins. -/
theorem getFirstMetadataValue_candidate_priority_counterexample :
    getFirstMetadataValue metadataPriorityManifest ["Author", "Creator"] = "Curator Cathy"
    ∧ candidateMajorFirstMetadataValue metadataPriorityManifest ["Author", "Creator"]
        = "Author Alice"
    ∧ getFirstMetadataValue metadataPriorityManifest ["Author", "Creator"]
        ≠ candidateMajorFirstMetadataValue metadataPriorityManifest ["Author", "Creator"] := by
  exact ⟨rfl, rfl, by decide⟩

/-- Steps 1–2 of `extractDate`: the located date string before year
extraction (trusted labels first, then created/published labels). -/
def locateDateString (manifest : JVal) : String :=
  let dateStr0 := getFirstMetadataValue manifest
    ["Date", "Publication Date", "date", "Issued"]
  if dateStr0 = "" then scanCreatedPublished (getMetadataList manifest) else dateStr0

/-- Numeric value of a digit character. -/
def digitVal (c : Char) : Nat := c.toNat - 48

/-- Decimal value of a four-character digit list (`0` otherwise). -/
def fourDigitVal : List Char → Nat
  | [c0, c1, c2, c3] => ((digitVal c0 * 10 + digitVal c1) * 10 + digitVal c2) * 10 + digitVal c3
  | _ => 0

theorem isDigitChar_bounds {c : Char} (h : isDigitChar c = true) :
    48 ≤ c.toNat ∧ c.toNat ≤ 57 := by
  simpa [isDigitChar] using h

theorem matchYearAt_spec (l : List Char) (y : String) (h : matchYearAt l = some y) :
    (∃ tail, l = y.data ++ tail) ∧ y.data.length = 4
    ∧ 1000 ≤ fourDigitVal y.data ∧ fourDigitVal y.data ≤ 2099 := by
  rcases l with _ | ⟨c0, _ | ⟨c1, _ | ⟨c2, _ | ⟨c3, rest⟩⟩⟩⟩
  · simp [matchYearAt] at h
  · simp [matchYearAt] at h
  · simp [matchYearAt] at h
  · simp [matchYearAt] at h
  · rw [matchYearAt] at h
    split_ifs at h with h1 h2
    · obtain ⟨rfl⟩ : (⟨[c0, c1, c2, c3]⟩ : String) = y := by injection h
      simp only [Bool.and_eq_true, decide_eq_true_eq] at h1
      obtain ⟨⟨⟨hc0, hd1⟩, hd2⟩, hd3⟩ := h1
      obtain ⟨hl1, hu1⟩ := isDigitChar_bounds hd1
      obtain ⟨hl2, hu2⟩ := isDigitChar_bounds hd2
      obtain ⟨hl3, hu3⟩ := isDigitChar_bounds hd3
      refine ⟨⟨rest, rfl⟩, rfl, ?_, ?_⟩ <;>
        · simp only [fourDigitVal, digitVal, hc0]
          have e1 : ('1' : Char).toNat = 49 := rfl
          omega
    · obtain ⟨rfl⟩ : (⟨[c0, c1, c2, c3]⟩ : String) = y := by injection h
      simp only [Bool.and_eq_true, decide_eq_true_eq] at h2
      obtain ⟨⟨⟨hc0, hc1⟩, hd2⟩, hd3⟩ := h2
      obtain ⟨hl2, hu2⟩ := isDigitChar_bounds hd2
      obtain ⟨hl3, hu3⟩ := isDigitChar_bounds hd3
      refine ⟨⟨rest, rfl⟩, rfl, ?_, ?_⟩ <;>
        · simp only [fourDigitVal, digitVal, hc0, hc1]
          have e2 : ('2' : Char).toNat = 50 := rfl
          have e0 : ('0' : Char).toNat = 48 := rfl
          omega

theorem findYear_spec (l : List Char) (y : String) (h : findYear l = some y) :
    (∃ p q, l = p ++ y.data ++ q) ∧ y.data.length = 4
    ∧ 1000 ≤ fourDigitVal y.data ∧ fourDigitVal y.data ≤ 2099 := by
  induction l with
  | nil => simp [findYear] at h
  | cons c rest ih =>
    rw [findYear] at h
    cases hm : matchYearAt (c :: rest) with
    | some y' =>
      rw [hm] at h
      obtain rfl : y' = y := by injection h
      obtain ⟨⟨tail, htail⟩, hlen, hlo, hhi⟩ := matchYearAt_spec _ _ hm
      exact ⟨⟨[], tail, by simpa using htail⟩, hlen, hlo, hhi⟩
    | none =>
      rw [hm] at h
      obtain ⟨⟨p, q, hpq⟩, hlen, hlo, hhi⟩ := ih h
      exact ⟨⟨c :: p, q, by simp [hpq]⟩, hlen, hlo, hhi⟩

/-- A manifest carrying `Date: "Printed in London, 1623"`. -/
def dateManifest1623 : JVal := .jobj [("metadata", .jarr [
  .jobj [("label", .jstr "Date"), ("value", .jstr "Printed in London, 1623")]])]

/-- A manifest carrying `Date: "circa 1600s"`. -/
def circa1600sManifest : JVal := .jobj [("metadata", .jarr [
  .jobj [("label", .jstr "Date"), ("value", .jstr "circa 1600s")]])]

/-- A manifest carrying `Date: "sixteenth century"` (no digit run). -/
def sixteenthCenturyManifest : JVal := .jobj [("metadata", .jarr [
  .jobj [("label", .jstr "Date"), ("value", .jstr "sixteenth century")]])]

/-- C4 (amended): `extractDate` extracts from the located date string
the first (leftmost) four-digit match of `1[0-9]{3}|20[0-9]{2}` — a
four-character substring whose value lies in 1000–1999 or 2000–2099 —
and returns the trimmed raw string only when there is no such match;
`"Printed in London, 1623"` yields `"1623"`, `"circa 1600s"` yields
`"1600"` (it contains the in-range run `1600`), and a value with no
four-digit run such as `"sixteenth century"` passes through trimmed. -/
theorem extractDate_year_extraction (m : JVal) :
    (extractDate m =
      (if locateDateString m = "" then ""
       else
         match findYear (locateDateString m).data with
         | some y => y
         | none => jsTrim (locateDateString m)))
    ∧ (∀ y, findYear (locateDateString m).data = some y →
        (∃ p q, (locateDateString m).data = p ++ y.data ++ q)
        ∧ y.data.length = 4
        ∧ 1000 ≤ fourDigitVal y.data ∧ fourDigitVal y.data ≤ 2099)
    ∧ extractDate dateManifest1623 = "1623"
    ∧ extractDate circa1600sManifest = "1600"
    ∧ extractDate sixteenthCenturyManifest = "sixteenth century" := by
  exact ⟨rfl, fun y h => findYear_spec _ y h, by decide, by decide, by decide⟩

/-- C4 witness: the second conjunct of `extractDate_year_extraction`
instantiated on the `Date: "Printed in London, 1623"` manifest and the
extracted year `"1623"`. -/
theorem extractDate_year_extraction_witness :
    (∃ p q, (locateDateString dateManifest1623).data = p ++ ("1623" : String).data ++ q)
    ∧ ("1623" : String).data.length = 4
    ∧ 1000 ≤ fourDigitVal ("1623" : String).data
    ∧ fourDigitVal ("1623" : String).data ≤ 2099 :=
  (extractDate_year_extraction dateManifest1623).2.1 "1623" (by decide)

/-- C4 counterexample: the claim's second example is false on the code —
`"circa 1600s"` is not returned verbatim, because it contains the
in-range four-digit run `1600`, which is extracted instead. -/
theorem extractDate_circa1600s_counterexample :
    extractDate circa1600sManifest = "1600"
    ∧ extractDate circa1600sManifest ≠ jsTrim "circa 1600s"
    ∧ extractDate circa1600sManifest ≠ "circa 1600s" := by
  exact ⟨rfl, by decide, by decide⟩

/-- C9: `trimManifestDirectory` strips query and fragment and removes
the final path segment (after removing a trailing empty segment from a
trailing slash) to produce the parent-directory URL, and returns the
input unchanged when URL parsing fails (malformed or relative input). -/
theorem trimManifestDirectory_parent_or_id (s : String) :
    (trimManifestDirectory s =
      (match parseUrl s with
       | none => s
       | some u =>
         let parts := (splitOnChar '/' u.pathname.data).map (fun l => (⟨l⟩ : String))
         let parts := if parts.length > 1 ∧ parts.getLast? = some "" then parts.dropLast else parts
         let parts := if parts.length > 1 then parts.dropLast else parts
         let newPath := joinWith "/" parts
         u.scheme ++ "://" ++ u.authority ++
           (if "/".data.isPrefixOf newPath.data then newPath else "/" ++ newPath)))
    ∧ trimManifestDirectory "https://example.org/iiif/b/manifest.json?a=1#top"
        = "https://example.org/iiif/b"
    ∧ trimManifestDirectory "https://example.org/iiif/b/" = "https://example.org/iiif"
    ∧ trimManifestDirectory "https://example.org/?q=1#f" = "https://example.org/"
    ∧ trimManifestDirectory "not a url" = "not a url"
    ∧ trimManifestDirectory "/iiif/manifest.json" = "/iiif/manifest.json" := by
  refine ⟨?_, by decide, by decide, by decide, by decide, by decide⟩
  by_cases h : s = ""
  · subst h; rfl
  · unfold trimManifestDirectory
    rw [if_neg h]

/-- Example URLs and manifests for the batch-conversion instance. -/
def urlA : String := "https://example.org/iiif/a/manifest.json"

/-- Second example URL (its retrieval will fail with a 404). -/
def urlB : String := "https://example.org/iiif/b/manifest.json"

/-- Third example URL. -/
def urlC : String := "https://example.org/iiif/c/manifest.json"

/-- Manifest served at `urlA`. -/
def manifestA : JVal := .jobj [("@id", .jstr urlA), ("label", .jstr "Item A")]

/-- Manifest served at `urlC`. -/
def manifestC : JVal := .jobj [("@id", .jstr urlC), ("label", .jstr "Item C")]

/-- A body that passes the IIIF sniff test. -/
def iiifBodyText : String :=
  "\x7b\"@context\": \"http://iiif.io/api/presentation/2/context.json\"\x7d"

/-- Retrieval environment: `urlA` and `urlC` succeed with parsed
manifests, everything else gets a 404. -/
def envABC : String → FetchResult := fun url =>
  if url = urlA then .success iiifBodyText (some manifestA)
  else if url = urlC then .success iiifBodyText (some manifestC)
  else .httpError 404

theorem iiifManifestUrlsToCSL_eq_filterMap (env : String → FetchResult)
    (urls : List String) :
    iiifManifestUrlsToCSL env urls = urls.filterMap (fun url =>
      if url = "" then none
      else
        match fetchManifest env url with
        | .ok manifest => some (manifestToCSLItem manifest url)
        | .error _ => none) := by
  induction urls with
  | nil => rfl
  | cons u rest ih =>
    by_cases hu : u = ""
    · simp [iiifManifestUrlsToCSL, hu, List.filterMap_cons, ih]
    · cases hf : fetchManifest env u with
      | ok m => simp [iiifManifestUrlsToCSL, hu, hf, List.filterMap_cons, ih]
      | error e => simp [iiifManifestUrlsToCSL, hu, hf, List.filterMap_cons, ih]

/-- C1: the Retrieval Pipeline is a per-URL `filterMap` — it skips falsy
entries and keeps, in input order, exactly the records of the URLs whose
retrieval and conversion succeed; failures contribute nothing and the
processing of a batch splits at any point (no failure aborts or reorders
later URLs); on `[A (valid), "" (falsy), B (404), C (valid)]` it yields
exactly the records for `A` then `C`. -/
theorem iiifManifestUrlsToCSL_per_url :
    (∀ (env : String → FetchResult) (urls : List String),
      iiifManifestUrlsToCSL env urls = urls.filterMap (fun url =>
        if url = "" then none
        else
          match fetchManifest env url with
          | .ok manifest => some (manifestToCSLItem manifest url)
          | .error _ => none))
    ∧ (∀ (env : String → FetchResult) (us vs : List String),
      iiifManifestUrlsToCSL env (us ++ vs)
        = iiifManifestUrlsToCSL env us ++ iiifManifestUrlsToCSL env vs)
    ∧ iiifManifestUrlsToCSL envABC [urlA, "", urlB, urlC]
        = [manifestToCSLItem manifestA urlA, manifestToCSLItem manifestC urlC] := by
  refine ⟨iiifManifestUrlsToCSL_eq_filterMap, ?_, ?_⟩
  · intro env us vs
    rw [iiifManifestUrlsToCSL_eq_filterMap, iiifManifestUrlsToCSL_eq_filterMap,
      iiifManifestUrlsToCSL_eq_filterMap, List.filterMap_append]
  · rfl
